import Mathlib

/-!
Shallow embedding of the commit-header parser and rule validator from
`src/header.rs` of the rcop repository.

Modelling choices:
* Rust `String` accumulation is modelled on `List Char`; the public
  functions take and return Lean `String`s (a `String` is a wrapper
  around its `List Char` data).
* Rust's `char::is_alphanumeric` / `char::is_whitespace` are modelled by
  Lean's `Char.isAlphanum` / `Char.isWhitespace` (the ASCII fragment of
  the Unicode predicates; all claims are about ASCII inputs).
* The `for c in line.chars()` loop with early `break` is modelled as a
  monadic fold in `Except`: the `break` on the newline transition is
  observationally equal to continuing the fold, because the `Body` state
  ignores every further character (`_ => {}` in the source).
* `io::Error` values are modelled by small inductive error types, one
  constructor per distinct error site of the source.
-/

namespace Rcop

/-- The parser phases, from `enum State` in `src/header.rs`. -/
inductive State where
  | type
  | scope
  | description
  | body
deriving DecidableEq, Repr

/-- The distinct error sites of `parse` in `src/header.rs`:
`typeError` for "Failed to read the type from the header",
`scopeError` for "Failed to retrieve the scope from the header",
`endOfLine s` for "Failed to read the body, ended up with the state {s}". -/
inductive HeaderError where
  | typeError
  | scopeError
  | endOfLine (s : State)
deriving DecidableEq, Repr

/-- The character class accepted while accumulating the type:
`c.is_alphanumeric() || c == '_'` in the source. -/
def typeChar (c : Char) : Bool :=
  c.isAlphanum || c == '_'

/-- The character class accepted while accumulating the scope:
alphanumeric or one of `_ , $ . / -` in the source. -/
def scopeChar (c : Char) : Bool :=
  c.isAlphanum || c == '_' || c == ',' || c == '$' || c == '.' || c == '/' || c == '-'

/-- The mutable locals of `parse` in `src/header.rs`, bundled as a record:
the three accumulators `_type`, `_scope`, `_description`, the current
`state`, the `paren_count` counter and the `valid_scope` flag. -/
structure ParseSt where
  ty : List Char
  sc : List Char
  de : List Char
  state : State
  paren_count : Int
  valid_scope : Bool
deriving DecidableEq, Repr

/-- The body of the `for c in line.chars()` loop of `parse`: one
transition of the state machine, faithful to the `match state` in
`src/header.rs` lines 19-74.  In the source the `Scope`/`':'` branch
mutates `paren_count` and `state` before testing `valid_scope`; since the
error return discards those mutations, testing `valid_scope` first is
observationally identical. -/
def step (st : ParseSt) (c : Char) : Except HeaderError ParseSt :=
  match st.state with
  | State.type =>
      if typeChar c then
        .ok { st with ty := st.ty ++ [c] }
      else if c = '(' then
        .ok { st with state := State.scope, paren_count := st.paren_count + 1 }
      else if c = ':' then
        .ok { st with state := State.description }
      else
        .error HeaderError.typeError
  | State.scope =>
      if scopeChar c then
        .ok { st with sc := st.sc ++ [c] }
      else if c = ')' then
        .ok { st with valid_scope := true }
      else if c = ':' then
        if st.valid_scope then
          .ok { st with paren_count := st.paren_count - 1,
                        state := if st.paren_count - 1 = 0 then State.description
                                 else State.scope }
        else
          .error HeaderError.scopeError
      else
        .error HeaderError.scopeError
  | State.description =>
      if c ≠ '\n' then
        .ok { st with de := st.de ++ [c] }
      else
        .ok { st with state := State.body }
  | State.body => .ok st

/-- The initial values of the locals of `parse`. -/
def initSt : ParseSt :=
  { ty := [], sc := [], de := [], state := State.type, paren_count := 0, valid_scope := false }

/-- Rust's `str::trim` on the character list: drop whitespace from both
ends. -/
def trimChars (l : List Char) : List Char :=
  ((l.dropWhile Char.isWhitespace).reverse.dropWhile Char.isWhitespace).reverse

/-- `trim().to_string()` producing a Lean `String`. -/
def trimStr (l : List Char) : String :=
  String.mk (trimChars l)

/-- `str::trim` lifted to `String`. -/
def strTrim (s : String) : String :=
  trimStr s.data

/-- `pub fn parse(line: &str)` from `src/header.rs`: run the state
machine over the characters of the line, then apply the post-scan check
(state must be `Description` or `Body`) and return the trimmed triple. -/
def parse (line : String) : Except HeaderError (String × String × String) :=
  match List.foldlM step initSt line.data with
  | .error e => .error e
  | .ok st =>
      if st.state ≠ State.body ∧ st.state ≠ State.description then
        .error (HeaderError.endOfLine st.state)
      else
        .ok (trimStr st.ty, trimStr st.sc, trimStr st.de)

/-- `pub struct CommitMessage` from `src/header.rs`. -/
structure CommitMessage where
  commit_type : String
  required : List String
deriving DecidableEq, Repr

/-- `default_commit_types()` from `src/header.rs` lines 98-145. -/
def default_commit_types : List CommitMessage :=
  [ { commit_type := "feat", required := ["scope", "description"] },
    { commit_type := "fix", required := ["scope", "description"] },
    { commit_type := "build", required := ["description"] },
    { commit_type := "chore", required := ["description"] },
    { commit_type := "ci", required := ["description"] },
    { commit_type := "docs", required := ["description"] },
    { commit_type := "perf", required := ["description"] },
    { commit_type := "refactor", required := ["description"] },
    { commit_type := "revert", required := ["description"] },
    { commit_type := "style", required := ["description"] } ,
    { commit_type := "test", required := ["description"] } ]

/-- The error sites of `validate` in `src/header.rs`:
`scopeRequired` for "Commit type requires a scope, but none given",
`descriptionRequired` for "Commit type requires a description, but none
given", `notAllowed` for "Commit type not allowed". -/
inductive ValidateError where
  | scopeRequired
  | descriptionRequired
  | notAllowed
deriving DecidableEq, Repr

/-- `pub fn validate` from `src/header.rs` lines 147-175: find the first
rule whose `commit_type` equals the parsed type exactly, then enforce its
required fields. -/
def validate (spec : List CommitMessage) (commit_type scope description : String) :
    Except ValidateError Bool :=
  match spec.find? (fun x => x.commit_type == commit_type) with
  | some t =>
      if t.required.contains "scope" && scope.isEmpty then
        .error ValidateError.scopeRequired
      else if t.required.contains "description" && description.isEmpty then
        .error ValidateError.descriptionRequired
      else
        .ok true
  | none => .error ValidateError.notAllowed

/-! ### Basic facts about the `Except` fold -/

lemma ok_bind {ε α β : Type} (a : α) (f : α → Except ε β) :
    (Except.ok a >>= f) = f a := rfl

lemma err_bind {ε α β : Type} (e : ε) (f : α → Except ε β) :
    ((Except.error e : Except ε α) >>= f) = Except.error e := rfl

lemma pure_eq_ok {ε α : Type} (a : α) : (pure a : Except ε α) = Except.ok a := rfl

/-- Once the machine is in the `Body` state every further character is
ignored (the `_ => {}` arm of the source loop). -/
lemma run_body (l : List Char) (ty sc de : List Char) (pc : Int) (vs : Bool) :
    List.foldlM step ⟨ty, sc, de, State.body, pc, vs⟩ l
      = .ok ⟨ty, sc, de, State.body, pc, vs⟩ := by
  induction l with
  | nil => rfl
  | cons c cs ih =>
      rw [List.foldlM_cons]
      show (Except.ok _ >>= _) = _
      rw [ok_bind, ih]

/-- Running the machine in the `Type` state over characters of the type
class appends them to the type accumulator and changes nothing else. -/
lemma run_ty (t : List Char) (ty sc de : List Char) (pc : Int) (vs : Bool)
    (ht : ∀ c ∈ t, typeChar c = true) :
    List.foldlM step ⟨ty, sc, de, State.type, pc, vs⟩ t
      = .ok ⟨ty ++ t, sc, de, State.type, pc, vs⟩ := by
  induction t generalizing ty with
  | nil => simp; rfl
  | cons c cs ih =>
      have hc : typeChar c = true := ht c (by simp)
      rw [List.foldlM_cons]
      show (step _ c >>= _) = _
      rw [show step ⟨ty, sc, de, State.type, pc, vs⟩ c
            = .ok ⟨ty ++ [c], sc, de, State.type, pc, vs⟩ by simp [step, hc]]
      rw [ok_bind, ih (ty ++ [c]) (fun c hmem => ht c (by simp [hmem]))]
      simp

/-- Running the machine in the `Scope` state over characters of the scope
class appends them to the scope accumulator and changes nothing else; in
particular `valid_scope` and `paren_count` are untouched. -/
lemma run_sc (t : List Char) (ty sc de : List Char) (pc : Int) (vs : Bool)
    (ht : ∀ c ∈ t, scopeChar c = true) :
    List.foldlM step ⟨ty, sc, de, State.scope, pc, vs⟩ t
      = .ok ⟨ty, sc ++ t, de, State.scope, pc, vs⟩ := by
  induction t generalizing sc with
  | nil => simp; rfl
  | cons c cs ih =>
      have hc : scopeChar c = true := ht c (by simp)
      rw [List.foldlM_cons]
      show (step _ c >>= _) = _
      rw [show step ⟨ty, sc, de, State.scope, pc, vs⟩ c
            = .ok ⟨ty, sc ++ [c], de, State.scope, pc, vs⟩ by simp [step, hc]]
      rw [ok_bind, ih (sc ++ [c]) (fun c hmem => ht c (by simp [hmem]))]
      simp

/-- Running the machine in the `Description` state accumulates everything
up to the first newline; it ends in `Body` exactly when a newline occurs,
otherwise it stays in `Description`.  It never fails. -/
lemma run_de (l : List Char) (ty sc de : List Char) (pc : Int) (vs : Bool) :
    List.foldlM step ⟨ty, sc, de, State.description, pc, vs⟩ l
      = .ok ⟨ty, sc, de ++ l.takeWhile (fun c => c != '\n'),
             (if l.any (fun c => c == '\n') then State.body else State.description),
             pc, vs⟩ := by
  induction l generalizing de with
  | nil => simp; rfl
  | cons c cs ih =>
      rw [List.foldlM_cons]
      show (step _ c >>= _) = _
      by_cases h : c = '\n'
      · subst h
        rw [show step ⟨ty, sc, de, State.description, pc, vs⟩ '\n'
              = .ok ⟨ty, sc, de, State.body, pc, vs⟩ by simp [step]]
        rw [ok_bind, run_body]
        simp
      · rw [show step ⟨ty, sc, de, State.description, pc, vs⟩ c
              = .ok ⟨ty, sc, de ++ [c], State.description, pc, vs⟩ by simp [step, h]]
        rw [ok_bind, ih (de ++ [c])]
        simp [List.takeWhile_cons, List.any_cons, h]

/-! ### Composite runs of the whole parser -/

/-- A line consisting of type-class characters, then `:`, then a rest:
the parser succeeds with an empty scope and the rest up to the first
newline as the description. -/
lemma parse_mk_plain (T R : List Char) (hT : ∀ c ∈ T, typeChar c = true) :
    parse (String.mk (T ++ ':' :: R))
      = .ok (trimStr T, "", trimStr (R.takeWhile (fun c => c != '\n'))) := by
  have h1 : List.foldlM step initSt (T ++ ':' :: R)
      = .ok ⟨T, [], R.takeWhile (fun c => c != '\n'),
             (if R.any (fun c => c == '\n') then State.body else State.description),
             0, false⟩ := by
    rw [List.foldlM_append]
    rw [show initSt = (⟨[], [], [], State.type, 0, false⟩ : ParseSt) from rfl]
    rw [run_ty T [] [] [] 0 false hT, ok_bind, List.foldlM_cons]
    rw [show step ⟨[] ++ T, [], [], State.type, 0, false⟩ ':'
          = .ok ⟨[] ++ T, [], [], State.description, 0, false⟩ from rfl]
    rw [ok_bind, run_de]
    simp
  unfold parse
  rw [show (String.mk (T ++ ':' :: R)).data = T ++ ':' :: R from rfl, h1]
  by_cases hR : R.any (fun c => c == '\n') <;> simp [hR] <;> rfl

/-- A line of shape `TYPE(A)B:REST` with `A`, `B` from the scope class:
the parser succeeds, the scope accumulator holds `A ++ B`. -/
lemma parse_mk_scoped (T A B R : List Char)
    (hT : ∀ c ∈ T, typeChar c = true)
    (hA : ∀ c ∈ A, scopeChar c = true)
    (hB : ∀ c ∈ B, scopeChar c = true) :
    parse (String.mk (T ++ '(' :: (A ++ ')' :: (B ++ ':' :: R))))
      = .ok (trimStr T, trimStr (A ++ B), trimStr (R.takeWhile (fun c => c != '\n'))) := by
  have h1 : List.foldlM step initSt (T ++ '(' :: (A ++ ')' :: (B ++ ':' :: R)))
      = .ok ⟨T, A ++ B, R.takeWhile (fun c => c != '\n'),
             (if R.any (fun c => c == '\n') then State.body else State.description),
             0, true⟩ := by
    rw [List.foldlM_append]
    rw [show initSt = (⟨[], [], [], State.type, 0, false⟩ : ParseSt) from rfl]
    rw [run_ty T [] [] [] 0 false hT, ok_bind, List.foldlM_cons]
    rw [show step ⟨[] ++ T, [], [], State.type, 0, false⟩ '('
          = .ok ⟨[] ++ T, [], [], State.scope, 0 + 1, false⟩ from rfl]
    rw [ok_bind, List.foldlM_append]
    rw [run_sc A ([] ++ T) [] [] (0 + 1) false hA, ok_bind, List.foldlM_cons]
    rw [show step ⟨[] ++ T, [] ++ A, [], State.scope, 0 + 1, false⟩ ')'
          = .ok ⟨[] ++ T, [] ++ A, [], State.scope, 0 + 1, true⟩ from rfl]
    rw [ok_bind, List.foldlM_append]
    rw [run_sc B ([] ++ T) ([] ++ A) [] (0 + 1) true hB, ok_bind, List.foldlM_cons]
    rw [show step ⟨[] ++ T, ([] ++ A) ++ B, [], State.scope, 0 + 1, true⟩ ':'
          = .ok ⟨[] ++ T, ([] ++ A) ++ B, [], State.description, 0, true⟩ by
        simp [step, scopeChar]]
    rw [ok_bind, run_de]
    simp
  unfold parse
  rw [show (String.mk (T ++ '(' :: (A ++ ')' :: (B ++ ':' :: R)))).data
        = T ++ '(' :: (A ++ ')' :: (B ++ ':' :: R)) from rfl, h1]
  by_cases hR : R.any (fun c => c == '\n') <;> simp [hR]

/-- A line of only type-class characters (in particular the empty line):
the scan ends while still in the `Type` state, so `parse` fails with the
post-scan check naming that state. -/
lemma parse_mk_ty_exhaust (T : List Char) (hT : ∀ c ∈ T, typeChar c = true) :
    parse (String.mk T) = .error (HeaderError.endOfLine State.type) := by
  unfold parse
  rw [show (String.mk T).data = T from rfl]
  rw [show initSt = (⟨[], [], [], State.type, 0, false⟩ : ParseSt) from rfl]
  rw [run_ty T [] [] [] 0 false hT]
  simp

/-- A line `TYPE(A` with `A` from the scope class and no closing of the
scope: the scan ends while still in the `Scope` state, so `parse` fails
with the post-scan check naming that state. -/
lemma parse_mk_sc_exhaust (T A : List Char)
    (hT : ∀ c ∈ T, typeChar c = true) (hA : ∀ c ∈ A, scopeChar c = true) :
    parse (String.mk (T ++ '(' :: A)) = .error (HeaderError.endOfLine State.scope) := by
  unfold parse
  rw [show (String.mk (T ++ '(' :: A)).data = T ++ '(' :: A from rfl]
  rw [List.foldlM_append]
  rw [show initSt = (⟨[], [], [], State.type, 0, false⟩ : ParseSt) from rfl]
  rw [run_ty T [] [] [] 0 false hT, ok_bind, List.foldlM_cons]
  rw [show step ⟨[] ++ T, [], [], State.type, 0, false⟩ '('
        = .ok ⟨[] ++ T, [], [], State.scope, 0 + 1, false⟩ from rfl]
  rw [ok_bind, run_sc A ([] ++ T) [] [] (0 + 1) false hA]
  simp

/-- A line `TYPE(A:...` in which a `:` arrives in the `Scope` state while
no `)` has been seen: `parse` fails with the scope error, regardless of
what follows the `:`. -/
lemma parse_mk_colon_noclose (T A R : List Char)
    (hT : ∀ c ∈ T, typeChar c = true) (hA : ∀ c ∈ A, scopeChar c = true) :
    parse (String.mk (T ++ '(' :: (A ++ ':' :: R))) = .error HeaderError.scopeError := by
  unfold parse
  rw [show (String.mk (T ++ '(' :: (A ++ ':' :: R))).data
        = T ++ '(' :: (A ++ ':' :: R) from rfl]
  rw [List.foldlM_append]
  rw [show initSt = (⟨[], [], [], State.type, 0, false⟩ : ParseSt) from rfl]
  rw [run_ty T [] [] [] 0 false hT, ok_bind, List.foldlM_cons]
  rw [show step ⟨[] ++ T, [], [], State.type, 0, false⟩ '('
        = .ok ⟨[] ++ T, [], [], State.scope, 0 + 1, false⟩ from rfl]
  rw [ok_bind, List.foldlM_append]
  rw [run_sc A ([] ++ T) [] [] (0 + 1) false hA, ok_bind, List.foldlM_cons]
  rw [show step ⟨[] ++ T, [] ++ A, [], State.scope, 0 + 1, false⟩ ':'
        = .error HeaderError.scopeError by simp [step, scopeChar]]
  rw [err_bind]

/-- A line `TYPE(A)B c ...` where `c`, occurring between the `)` and any
`:`, is outside the scope class and is neither `)` nor `:`: `parse` fails
with the scope error. -/
lemma parse_mk_badchar (T A B R : List Char) (c : Char)
    (hT : ∀ x ∈ T, typeChar x = true)
    (hA : ∀ x ∈ A, scopeChar x = true)
    (hB : ∀ x ∈ B, scopeChar x = true)
    (hc : scopeChar c = false) (hc1 : c ≠ ')') (hc2 : c ≠ ':') :
    parse (String.mk (T ++ '(' :: (A ++ ')' :: (B ++ c :: R))))
      = .error HeaderError.scopeError := by
  unfold parse
  rw [show (String.mk (T ++ '(' :: (A ++ ')' :: (B ++ c :: R)))).data
        = T ++ '(' :: (A ++ ')' :: (B ++ c :: R)) from rfl]
  rw [List.foldlM_append]
  rw [show initSt = (⟨[], [], [], State.type, 0, false⟩ : ParseSt) from rfl]
  rw [run_ty T [] [] [] 0 false hT, ok_bind, List.foldlM_cons]
  rw [show step ⟨[] ++ T, [], [], State.type, 0, false⟩ '('
        = .ok ⟨[] ++ T, [], [], State.scope, 0 + 1, false⟩ from rfl]
  rw [ok_bind, List.foldlM_append]
  rw [run_sc A ([] ++ T) [] [] (0 + 1) false hA, ok_bind, List.foldlM_cons]
  rw [show step ⟨[] ++ T, [] ++ A, [], State.scope, 0 + 1, false⟩ ')'
        = .ok ⟨[] ++ T, [] ++ A, [], State.scope, 0 + 1, true⟩ from rfl]
  rw [ok_bind, List.foldlM_append]
  rw [run_sc B ([] ++ T) ([] ++ A) [] (0 + 1) true hB, ok_bind, List.foldlM_cons]
  rw [show step ⟨[] ++ T, ([] ++ A) ++ B, [], State.scope, 0 + 1, true⟩ c
        = .error HeaderError.scopeError by simp [step, hc, hc1, hc2]]
  rw [err_bind]

/-! ### Facts about trimming -/

lemma of_head?_dropWhile {α : Type} (p : α → Bool) (l : List α) (a : α)
    (h : (l.dropWhile p).head? = some a) : p a = false := by
  have hm := List.head?_dropWhile_not p l
  rw [h] at hm
  exact hm

lemma dropWhile_of_head?_false {α : Type} (p : α → Bool) (l : List α)
    (h : ∀ a, l.head? = some a → p a = false) : l.dropWhile p = l := by
  cases l with
  | nil => rfl
  | cons a t =>
      have ha := h a rfl
      simp [List.dropWhile_cons, ha]

lemma dropWhile_idem {α : Type} (p : α → Bool) (l : List α) :
    (l.dropWhile p).dropWhile p = l.dropWhile p :=
  dropWhile_of_head?_false p _ (fun a ha => of_head?_dropWhile p l a ha)

lemma getLast?_dropWhile {α : Type} (p : α → Bool) (l : List α)
    (h : l.dropWhile p ≠ []) : (l.dropWhile p).getLast? = l.getLast? := by
  induction l with
  | nil => simp at h
  | cons a t ih =>
      by_cases hp : p a
      · rw [List.dropWhile_cons_of_pos hp] at h ⊢
        rw [ih h]
        have ht : t ≠ [] := by
          rintro rfl
          simp at h
        cases t with
        | nil => exact absurd rfl ht
        | cons b u => simp
      · rw [List.dropWhile_cons_of_neg hp]

/-- The first character of a trimmed list (if any) is not whitespace. -/
lemma trimChars_head (l : List Char) (a : Char)
    (h : (trimChars l).head? = some a) : Char.isWhitespace a = false := by
  unfold trimChars at h
  rw [List.head?_reverse] at h
  have hne : (l.dropWhile Char.isWhitespace).reverse.dropWhile Char.isWhitespace ≠ [] := by
    intro hnil
    rw [hnil] at h
    simp at h
  rw [getLast?_dropWhile _ _ hne] at h
  rw [List.getLast?_reverse] at h
  exact of_head?_dropWhile _ _ _ h

/-- The last character of a trimmed list (if any) is not whitespace. -/
lemma trimChars_last (l : List Char) (a : Char)
    (h : (trimChars l).getLast? = some a) : Char.isWhitespace a = false := by
  unfold trimChars at h
  rw [List.getLast?_reverse] at h
  exact of_head?_dropWhile _ _ _ h

/-- A list whose ends hold no whitespace is already trimmed. -/
lemma trimChars_of_ends (l : List Char)
    (h1 : ∀ a, l.head? = some a → Char.isWhitespace a = false)
    (h2 : ∀ a, l.getLast? = some a → Char.isWhitespace a = false) :
    trimChars l = l := by
  unfold trimChars
  rw [dropWhile_of_head?_false _ _ h1]
  rw [dropWhile_of_head?_false _ _ (fun a ha => h2 a (by rwa [List.head?_reverse] at ha))]
  exact List.reverse_reverse l

/-- Trimming is idempotent. -/
lemma trimChars_idem (l : List Char) : trimChars (trimChars l) = trimChars l :=
  trimChars_of_ends _ (trimChars_head l) (trimChars_last l)

/-- A list without whitespace anywhere is its own trim. -/
lemma trimChars_of_no_ws (l : List Char)
    (h : ∀ c ∈ l, Char.isWhitespace c = false) : trimChars l = l := by
  refine trimChars_of_ends l (fun a ha => ?_) (fun a ha => ?_)
  · exact h a (List.mem_of_mem_head? (Option.mem_def.mpr ha))
  · exact h a (List.mem_of_getLast?_eq_some ha)

/-- Type-class characters are never whitespace. -/
lemma typeChar_not_ws (c : Char) (h : typeChar c = true) :
    Char.isWhitespace c = false := by
  cases hw : Char.isWhitespace c
  · rfl
  · exfalso
    rw [Char.isWhitespace] at hw
    simp only [Bool.or_eq_true, decide_eq_true_eq] at hw
    rcases hw with ((h1 | h1) | h1) | h1 <;> subst h1 <;> revert h <;> decide

/-- Scope-class characters are never whitespace. -/
lemma scopeChar_not_ws (c : Char) (h : scopeChar c = true) :
    Char.isWhitespace c = false := by
  cases hw : Char.isWhitespace c
  · rfl
  · exfalso
    rw [Char.isWhitespace] at hw
    simp only [Bool.or_eq_true, decide_eq_true_eq] at hw
    rcases hw with ((h1 | h1) | h1) | h1 <;> subst h1 <;> revert h <;> decide

lemma takeWhile_all {α : Type} (p : α → Bool) (l : List α)
    (h : ∀ c ∈ l, p c = true) : l.takeWhile p = l := by
  induction l with
  | nil => rfl
  | cons a t ih =>
      rw [List.takeWhile_cons_of_pos (h a (by simp))]
      rw [ih (fun c hc => h c (by simp [hc]))]

/-! ### Facts about `validate` -/

/-- `parse` only inspects the character data of its input. -/
lemma parse_congr (a b : String) (h : a.data = b.data) : parse a = parse b := by
  unfold parse
  rw [h]

lemma empty_isEmpty : ("" : String).isEmpty = true := rfl

/-- When the matched rule requires scope and description, validation
succeeds exactly when both are non-empty. -/
lemma validate_two_req (spec : List CommitMessage) (t s d name : String)
    (h : spec.find? (fun x => x.commit_type == t)
          = some { commit_type := name, required := ["scope", "description"] }) :
    validate spec t s d = .ok true ↔ (s ≠ "" ∧ d ≠ "") := by
  unfold validate
  rw [h]
  by_cases hs : s = ""
  · subst hs
    simp [empty_isEmpty]
  · have hs' : s.isEmpty = false := by
      rw [Bool.eq_false_iff]
      intro hh
      exact hs ((String.isEmpty_iff s).mp hh)
    by_cases hd : d = ""
    · subst hd
      simp [hs', hs, empty_isEmpty]
    · have hd' : d.isEmpty = false := by
        rw [Bool.eq_false_iff]
        intro hh
        exact hd ((String.isEmpty_iff d).mp hh)
      simp [hs', hd', hs, hd]

/-- When the matched rule requires only the description, validation
succeeds exactly when the description is non-empty. -/
lemma validate_one_req (spec : List CommitMessage) (t s d name : String)
    (h : spec.find? (fun x => x.commit_type == t)
          = some { commit_type := name, required := ["description"] }) :
    validate spec t s d = .ok true ↔ d ≠ "" := by
  unfold validate
  rw [h]
  by_cases hd : d = ""
  · subst hd
    simp [empty_isEmpty]
  · have hd' : d.isEmpty = false := by
      rw [Bool.eq_false_iff]
      intro hh
      exact hd ((String.isEmpty_iff d).mp hh)
    simp [hd', hd]

/-! ### The claims -/

/-- C1 (counterexample): the claim says that any character other than `:`
between the closing `)` and the `:` makes `parse` fail; but on
`"name(a)b: x"` the character `b` stands between `)` and `:` and `parse`
succeeds, accumulating it into the scope. -/
theorem claim_C1_counterexample :
    parse "name(a)b: x" = Except.ok ("name", "ab", "x") := rfl

/-- C1 (amended): after `)` the parser stays in the `Scope` phase, so
scope-class characters between `)` and `:` are accepted and appended to
the scope; only a character outside the scope class that is neither `)`
nor `:` makes `parse` fail there. -/
theorem claim_C1 :
    (∀ T A B R : List Char,
        (∀ c ∈ T, typeChar c = true) → (∀ c ∈ A, scopeChar c = true) →
        (∀ c ∈ B, scopeChar c = true) →
        parse (String.mk (T ++ '(' :: (A ++ ')' :: (B ++ ':' :: R))))
          = .ok (trimStr T, trimStr (A ++ B),
                 trimStr (R.takeWhile (fun c => c != '\n'))))
    ∧ (∀ (T A B R : List Char) (c : Char),
        (∀ x ∈ T, typeChar x = true) → (∀ x ∈ A, scopeChar x = true) →
        (∀ x ∈ B, scopeChar x = true) →
        scopeChar c = false → c ≠ ')' → c ≠ ':' →
        parse (String.mk (T ++ '(' :: (A ++ ')' :: (B ++ c :: R))))
          = .error HeaderError.scopeError) :=
  ⟨parse_mk_scoped, fun T A B R c hT hA hB hc h1 h2 =>
    parse_mk_badchar T A B R c hT hA hB hc h1 h2⟩

theorem claim_C1_witness :
    parse "n(a)b: x" = Except.ok ("n", "ab", "x")
    ∧ parse "n(a)b x" = Except.error HeaderError.scopeError := by
  constructor
  · exact claim_C1.1 ['n'] ['a'] ['b'] [' ', 'x'] (by decide) (by decide) (by decide)
  · exact claim_C1.2 ['n'] ['a'] ['b'] ['x'] ' '
      (by decide) (by decide) (by decide) (by decide) (by decide) (by decide)

/-- C2 (counterexample): the claim says `parse "feat( args ): value "`
succeeds with the trimmed triple; in fact the space after `(` is not in
the scope character class, so `parse` fails with the scope error. -/
theorem claim_C2_counterexample :
    parse "feat( args ): value " = Except.error HeaderError.scopeError := rfl

/-- C2 (amended): spaces inside the scope parentheses are rejected (space
is outside the scope character class), so `"feat( args ): value "` fails;
without internal spaces, `"feat(args): value "` parses and the trailing
space of the description is trimmed away. -/
theorem claim_C2 :
    parse "feat(args): value " = Except.ok ("feat", "args", "value") := rfl

/-- C3: every input `TYPE: DESC` with `TYPE` alphanumeric/underscore and
`DESC` free of line breaks parses with an empty scope; every input
`TYPE(SCOPE): DESC` with `SCOPE` drawn from the scope class parses and
returns exactly that scope. -/
theorem claim_C3 :
    (∀ TYPE DESC : String,
        (∀ c ∈ TYPE.data, typeChar c = true) → '\n' ∉ DESC.data →
        parse (TYPE ++ ": " ++ DESC) = .ok (TYPE, "", strTrim DESC))
    ∧ (∀ TYPE SCOPE DESC : String,
        (∀ c ∈ TYPE.data, typeChar c = true) →
        (∀ c ∈ SCOPE.data, scopeChar c = true) →
        ∃ d : String, parse (TYPE ++ "(" ++ SCOPE ++ "): " ++ DESC)
          = .ok (TYPE, SCOPE, d)) := by
  constructor
  · intro TYPE DESC hT hD
    rw [parse_congr (TYPE ++ ": " ++ DESC)
          (String.mk (TYPE.data ++ ':' :: ' ' :: DESC.data))
          (by simp only [String.data_append, List.append_assoc]; rfl)]
    rw [parse_mk_plain TYPE.data (' ' :: DESC.data) hT]
    have h1 : trimStr TYPE.data = TYPE := by
      unfold trimStr
      rw [trimChars_of_no_ws TYPE.data (fun c hc => typeChar_not_ws c (hT c hc))]
    have h2 : (' ' :: DESC.data).takeWhile (fun c => c != '\n') = ' ' :: DESC.data := by
      apply takeWhile_all
      intro c hc
      rcases List.mem_cons.mp hc with rfl | hc
      · decide
      · simp only [bne_iff_ne, ne_eq]
        intro hcc
        exact hD (hcc ▸ hc)
    have h3 : trimStr (' ' :: DESC.data) = strTrim DESC := by
      unfold trimStr strTrim trimStr trimChars
      rw [List.dropWhile_cons_of_pos (by decide)]
    rw [h1, h2, h3]
  · intro TYPE SCOPE DESC hT hS
    refine ⟨trimStr ((' ' :: DESC.data).takeWhile (fun c => c != '\n')), ?_⟩
    rw [parse_congr (TYPE ++ "(" ++ SCOPE ++ "): " ++ DESC)
          (String.mk (TYPE.data ++ '(' :: (SCOPE.data ++ ')' :: ([] ++ ':' :: ' ' :: DESC.data))))
          (by simp only [String.data_append, List.append_assoc, List.nil_append]; rfl)]
    rw [parse_mk_scoped TYPE.data SCOPE.data [] (' ' :: DESC.data) hT hS (by simp)]
    have h1 : trimStr TYPE.data = TYPE := by
      unfold trimStr
      rw [trimChars_of_no_ws TYPE.data (fun c hc => typeChar_not_ws c (hT c hc))]
    have h2 : trimStr (SCOPE.data ++ []) = SCOPE := by
      unfold trimStr
      rw [List.append_nil]
      rw [trimChars_of_no_ws SCOPE.data (fun c hc => scopeChar_not_ws c (hS c hc))]
    rw [h1, h2]

theorem claim_C3_witness :
    parse "feat: hello" = Except.ok ("feat", "", "hello") :=
  claim_C3.1 "feat" "hello" (by decide) (by decide)

/-- C4: a `:` met in the `Scope` phase with no preceding `)` is a
scope error, whatever follows; a line exhausted in the `Type` phase
(including the empty line) or in the `Scope` phase is an end-of-line
error naming that phase; the claim's concrete examples behave exactly
so. -/
theorem claim_C4 :
    (∀ T A R : List Char,
        (∀ c ∈ T, typeChar c = true) → (∀ c ∈ A, scopeChar c = true) →
        parse (String.mk (T ++ '(' :: (A ++ ':' :: R)))
          = .error HeaderError.scopeError)
    ∧ (∀ T : List Char, (∀ c ∈ T, typeChar c = true) →
        parse (String.mk T) = .error (HeaderError.endOfLine State.type))
    ∧ (∀ T A : List Char,
        (∀ c ∈ T, typeChar c = true) → (∀ c ∈ A, scopeChar c = true) →
        parse (String.mk (T ++ '(' :: A))
          = .error (HeaderError.endOfLine State.scope))
    ∧ parse "name(args: value" = .error HeaderError.scopeError
    ∧ parse "" = .error (HeaderError.endOfLine State.type)
    ∧ parse "name" = .error (HeaderError.endOfLine State.type)
    ∧ parse "name(args" = .error (HeaderError.endOfLine State.scope) :=
  ⟨parse_mk_colon_noclose, parse_mk_ty_exhaust, parse_mk_sc_exhaust,
    rfl, rfl, rfl, rfl⟩

theorem claim_C4_witness :
    parse "t(a: z" = Except.error HeaderError.scopeError :=
  claim_C4.1 ['t'] ['a'] [' ', 'z'] (by decide) (by decide)

/-- C5: with the default rules, `feat` with empty scope is a
missing-scope error and `feat` with a scope and description succeeds;
`feat` and `fix` succeed exactly when scope and description are both
non-empty, and each of the other nine default types succeeds exactly when
the description is non-empty. -/
theorem claim_C5 :
    validate default_commit_types "feat" "" "description"
      = .error ValidateError.scopeRequired
    ∧ validate default_commit_types "feat" "scope" "description" = .ok true
    ∧ (∀ s d : String,
        (validate default_commit_types "feat" s d = .ok true ↔ (s ≠ "" ∧ d ≠ ""))
        ∧ (validate default_commit_types "fix" s d = .ok true ↔ (s ≠ "" ∧ d ≠ "")))
    ∧ (∀ t : String,
        t ∈ (["build", "chore", "ci", "docs", "perf", "refactor",
              "revert", "style", "test"] : List String) →
        ∀ s d : String,
        (validate default_commit_types t s d = .ok true ↔ d ≠ "")) := by
  refine ⟨rfl, rfl, ?_, ?_⟩
  · intro s d
    exact ⟨validate_two_req default_commit_types "feat" s d "feat" (by decide),
           validate_two_req default_commit_types "fix" s d "fix" (by decide)⟩
  · intro t ht s d
    simp only [List.mem_cons, List.not_mem_nil, or_false] at ht
    rcases ht with rfl | rfl | rfl | rfl | rfl | rfl | rfl | rfl | rfl
    · exact validate_one_req default_commit_types "build" s d "build" (by decide)
    · exact validate_one_req default_commit_types "chore" s d "chore" (by decide)
    · exact validate_one_req default_commit_types "ci" s d "ci" (by decide)
    · exact validate_one_req default_commit_types "docs" s d "docs" (by decide)
    · exact validate_one_req default_commit_types "perf" s d "perf" (by decide)
    · exact validate_one_req default_commit_types "refactor" s d "refactor" (by decide)
    · exact validate_one_req default_commit_types "revert" s d "revert" (by decide)
    · exact validate_one_req default_commit_types "style" s d "style" (by decide)
    · exact validate_one_req default_commit_types "test" s d "test" (by decide)

theorem claim_C5_witness :
    validate default_commit_types "docs" "" "x" = Except.ok true :=
  (claim_C5.2.2.2 "docs" (by decide) "" "x").mpr (by decide)

/-- C6: whenever no rule's name equals the parsed type exactly, `validate`
fails with the not-allowed error; in particular with the empty rule set it
fails so for every input. -/
theorem claim_C6 :
    (∀ (spec : List CommitMessage) (t s d : String),
        (∀ r ∈ spec, r.commit_type ≠ t) →
        validate spec t s d = .error ValidateError.notAllowed)
    ∧ (∀ t s d : String,
        validate [] t s d = .error ValidateError.notAllowed) := by
  constructor
  · intro spec t s d h
    unfold validate
    rw [List.find?_eq_none.mpr (fun x hx => by simpa using h x hx)]
  · intro t s d
    rfl

theorem claim_C6_witness :
    validate default_commit_types "unknown" "s" "d"
      = Except.error ValidateError.notAllowed :=
  claim_C6.1 default_commit_types "unknown" "s" "d" (by decide)

/-- C7: whenever `parse` succeeds, each returned field equals its own
trimmed form, i.e. carries no leading or trailing whitespace. -/
theorem claim_C7 :
    ∀ (line t s d : String), parse line = .ok (t, s, d) →
    t = strTrim t ∧ s = strTrim s ∧ d = strTrim d := by
  intro line t s d h
  have key : ∀ l : List Char, strTrim (trimStr l) = trimStr l := by
    intro l
    unfold strTrim trimStr
    rw [show (String.mk (trimChars l)).data = trimChars l from rfl, trimChars_idem]
  unfold parse at h
  cases hf : List.foldlM step initSt line.data with
  | error e =>
      rw [hf] at h
      exact absurd h (by simp)
  | ok st =>
      rw [hf] at h
      dsimp only at h
      by_cases hs : st.state ≠ State.body ∧ st.state ≠ State.description
      · rw [if_pos hs] at h
        exact absurd h (by simp)
      · rw [if_neg hs] at h
        simp only [Except.ok.injEq, Prod.mk.injEq] at h
        obtain ⟨h1, h2, h3⟩ := h
        subst h1; subst h2; subst h3
        exact ⟨(key _).symm, (key _).symm, (key _).symm⟩

theorem claim_C7_witness :
    "a" = strTrim "a" ∧ "" = strTrim "" ∧ "b" = strTrim "b" :=
  claim_C7 "a: b" "a" "" "b" rfl

/-- C8: rule lookup takes the first rule whose name equals the type
exactly, so the rules before are irrelevant when none matches and the
rules after the first match are irrelevant; a name differing only in
letter case does not match. -/
theorem claim_C8 :
    (∀ (spec1 spec2 : List CommitMessage) (r : CommitMessage) (t s d : String),
        r.commit_type = t → (∀ x ∈ spec1, x.commit_type ≠ t) →
        validate (spec1 ++ r :: spec2) t s d = validate [r] t s d)
    ∧ validate [{ commit_type := "Feat", required := [] }] "feat" "s" "d"
        = .error ValidateError.notAllowed := by
  constructor
  · intro spec1 spec2 r t s d hr h1
    unfold validate
    rw [List.find?_append]
    rw [List.find?_eq_none.mpr (fun x hx => by simpa using h1 x hx)]
    rw [List.find?_cons_of_pos _ (by simpa using hr)]
    rw [List.find?_cons_of_pos _ (by simpa using hr)]
    rfl
  · rfl

theorem claim_C8_witness :
    validate ([{ commit_type := "build", required := ["description"] }]
        ++ { commit_type := "feat", required := ([] : List String) }
          :: [{ commit_type := "feat", required := ["scope", "description"] }])
      "feat" "" ""
      = validate [{ commit_type := "feat", required := ([] : List String) }] "feat" "" "" :=
  claim_C8.1 [{ commit_type := "build", required := ["description"] }]
    [{ commit_type := "feat", required := ["scope", "description"] }]
    { commit_type := "feat", required := ([] : List String) } "feat" "" "" rfl (by decide)

/-- C9: `validate` never produces `Ok(false)`: every outcome is either
`Ok(true)` or one of the three errors. -/
theorem claim_C9 :
    ∀ (spec : List CommitMessage) (t s d : String),
    validate spec t s d = .ok true ∨ ∃ e, validate spec t s d = .error e := by
  intro spec t s d
  unfold validate
  cases hf : spec.find? (fun x => x.commit_type == t) with
  | none => exact Or.inr ⟨ValidateError.notAllowed, rfl⟩
  | some r =>
      by_cases h1 : (r.required.contains "scope" && s.isEmpty) = true
      · exact Or.inr ⟨ValidateError.scopeRequired, by dsimp only; rw [if_pos h1]⟩
      · by_cases h2 : (r.required.contains "description" && d.isEmpty) = true
        · exact Or.inr ⟨ValidateError.descriptionRequired, by
            dsimp only; rw [if_neg h1, if_pos h2]⟩
        · exact Or.inl (by dsimp only; rw [if_neg h1, if_neg h2])

/-- C10: any line beginning with `:` parses successfully — the `:` sends
the machine straight to the `Description` phase — and the returned type is
the empty string; in particular `": desc"` yields `("", "", "desc")`. -/
theorem claim_C10 :
    (∀ rest : String, ∃ d : String, parse (":" ++ rest) = .ok ("", "", d))
    ∧ parse ": desc" = Except.ok ("", "", "desc") := by
  constructor
  · intro rest
    refine ⟨trimStr (rest.data.takeWhile (fun c => c != '\n')), ?_⟩
    rw [parse_congr (":" ++ rest) (String.mk (':' :: rest.data))
          (by simp only [String.data_append]; rfl)]
    exact parse_mk_plain [] rest.data (by simp)
  · rfl

end Rcop
